import Mathlib

/-!
# Verification of mini-iso-tools (src/main.c)

A shallow embedding of the core logic of `src/main.c`: the choice-set
construction loop (`read_iso_choices`), the interactive selection loop of
`main`, the menu/button rendering geometry (`button_item`, `menu_create`,
`vertical_center`, `horizontal_center`, `top_banner`), the color conversion
(`color_byte_to_ncurses`), and the output serializer (`write_output`).

Machine integers are modelled as `Int`/`Nat`; the ncurses menu engine and
the feed reader (`get_newest_iso`, defined in `json.c`, which is not part of
`src/`) are modelled at their specified boundary where noted.
-/

namespace MiniIso

/-- One selectable install image (`iso_data_t` from `json.h`):
url, label, sha256sum, and a 64-bit size. -/
structure iso_data where
  url : String
  label : String
  sha256sum : String
  size : Int
  deriving DecidableEq, Repr

/-- Feed-reader error taxonomy.  Modelled from the spec: `get_newest_iso`
lives in `json.c`, which is not under `src/`; the spec names
`ParseError`, `NoMatchError` and `IncompleteRecordError` as its failure
modes, all fatal. -/
inductive FeedError where
  | parseError
  | noMatchError
  | incompleteRecordError
  deriving DecidableEq, Repr

/-- `read_iso_choices` (src/main.c:76-83): call the feed reader once per
input feed, in input order, collecting one record per feed.

Modelled from the spec: the reader `get_newest_iso` itself is code in
`json.c` (not under `src/`); per the spec its failure is fatal and aborts
construction, which is modelled by short-circuiting in `Except`. -/
def read_iso_choices {α : Type} (reader : α → Except FeedError iso_data) :
    List α → Except FeedError (List iso_data)
  | [] => .ok []
  | f :: fs =>
    match reader f with
    | .error e => .error e
    | .ok v =>
      match read_iso_choices reader fs with
      | .error e => .error e
      | .ok rest => .ok (v :: rest)

/-- The same loop as `read_iso_choices`, instrumented with the list of
feeds actually passed to the reader, in invocation order. -/
def read_iso_choices_traced {α : Type} (reader : α → Except FeedError iso_data) :
    List α → List α × Except FeedError (List iso_data)
  | [] => ([], .ok [])
  | f :: fs =>
    match reader f with
    | .error e => ([f], .error e)
    | .ok v =>
      match read_iso_choices_traced reader fs with
      | (t, .error e) => (f :: t, .error e)
      | (t, .ok rest) => (f :: t, .ok (v :: rest))

/-- ncurses key codes used by the input loop (from `<ncurses.h>`):
`KEY_DOWN` = 0o402. -/
def KEY_DOWN : Int := 258

/-- ncurses `KEY_UP` = 0o403. -/
def KEY_UP : Int := 259

/-- ncurses `KEY_ENTER` = 0o527. -/
def KEY_ENTER : Int := 343

/-- Modelled from the spec: the ncurses menu engine's current item starts
at the first item after `new_menu` (spec: "The first choice is the
initially highlighted entry"). -/
def new_menu_index : Nat := 0

/-- Modelled from the spec: `menu_driver(menu, REQ_DOWN_ITEM)` moves the
highlight to the next item; at the last item the request is denied and
the highlight stays (no wraparound). -/
def req_down_item (n i : Nat) : Nat :=
  if i + 1 < n then i + 1 else i

/-- Modelled from the spec: `menu_driver(menu, REQ_UP_ITEM)` moves the
highlight to the previous item; at the first item the request is denied
and the highlight stays (no wraparound). -/
def req_up_item (i : Nat) : Nat :=
  i - 1

/-- One iteration of the `while(continuing)` input loop of `main`
(src/main.c:307-326), given the consumed key `ch` and the current
highlighted index `i` of an `n`-item menu.  Returns the new highlighted
index and the new value of `continuing`. -/
def loop_step (n i : Nat) (ch : Int) : Nat × Bool :=
  if ch = KEY_DOWN then (req_down_item n i, true)
  else if ch = KEY_UP then (req_up_item i, true)
  else if ch = KEY_ENTER then (i, false)
  else if ch = 13 then (i, false)
  else if ch = 10 then (i, false)
  else if ch = 32 then (i, false)
  else (i, true)

/-- A key that ends the loop: `KEY_ENTER`, carriage return `\r` (13),
newline `\n` (10), or space (32) (src/main.c:317-320). -/
def is_commit_key (ch : Int) : Prop :=
  ch = KEY_ENTER ∨ ch = 13 ∨ ch = 10 ∨ ch = 32

instance (ch : Int) : Decidable (is_commit_key ch) := by
  unfold is_commit_key; infer_instance

/-- Run the input loop of `main` on a finite stream of key events.
`some j` means the loop exited (a commit key was consumed) with
highlighted index `j`; `none` means the stream was exhausted with the
session still navigating. -/
def session_loop (n : Nat) : List Int → Nat → Option Nat
  | [], _ => none
  | ch :: rest, i =>
    match loop_step n i ch with
    | (j, true) => session_loop n rest j
    | (j, false) => some j

/-- `menu_get_selected_item` (src/main.c:135-139): return the record of
the choice set at the current item index. -/
def menu_get_selected_item (choices : List iso_data) (idx : Nat) : Option iso_data :=
  choices[idx]?

/-- `horizontal_center` (src/main.c:85-88): `(COLS - len) / 2` with C
truncating integer division. -/
def horizontal_center (COLS len : Int) : Int :=
  Int.tdiv (COLS - len) 2

/-- `vertical_center` (src/main.c:90-94): `3 + (LINES - 3 - len) / 2`
with C truncating integer division; the `3` accounts for the banner
rows. -/
def vertical_center (LINES len : Int) : Int :=
  3 + Int.tdiv (LINES - 3 - len) 2

/-- One drawing operation performed by the banner renderer: a full-width
horizontal line of a repeated glyph at row `y`, or a string placed at
row `y`, column `x`. -/
inductive DrawOp where
  | hline (y : Int) (glyph : Char) (color : Nat)
  | text (y : Int) (x : Int) (s : String)
  deriving DecidableEq, Repr

/-- The row a drawing op touches. -/
def DrawOp.row : DrawOp → Int
  | .hline y _ _ => y
  | .text y _ _ => y

/-- Color-pair ids assigned in `resources_create` (src/main.c:255-261). -/
def black_orange : Nat := 1

/-- Second color pair of `resources_create`. -/
def white_orange : Nat := 2

/-- Third color pair of `resources_create`. -/
def white_green : Nat := 3

/-- `top_banner` (src/main.c:103-118) as the ordered list of drawing
operations it performs: an upper-half-block row at `y = 0`, a blank row
at `y = 1`, a lower-half-block row at `y = 2`, then the caption centered
horizontally at `y = 1`. -/
def top_banner (COLS : Int) (label : String) : List DrawOp :=
  [ .hline 0 '▀' black_orange,
    .hline 1 ' ' white_orange,
    .hline 2 '▄' black_orange,
    .text 1 (horizontal_center COLS (Int.ofNat label.length)) label ]

/-- The distinct screen rows painted by `top_banner`. -/
def banner_rows (COLS : Int) (label : String) : List Int :=
  ((top_banner COLS label).map DrawOp.row).dedup

/-- Left-justified field of minimum width `w` (printf `%-*s`): the string
followed by enough spaces to reach width `w`; a longer string is not
truncated. -/
def pad_left_justified (s : String) (w : Nat) : String :=
  s ++ String.mk (List.replicate (w - s.length) ' ')

/-- The text built by `button_item` (src/main.c:120-126):
`saprintf("[ %-*s ▸ ]", textwidth, label)`. -/
def button_item (label : String) (textwidth : Nat) : String :=
  "[ " ++ pad_left_justified label textwidth ++ " ▸ ]"

/-- The widest-label computation of `menu_create` (src/main.c:162-165):
fold of `MAX` over the label lengths, starting from 0. -/
def longest_label (labels : List String) : Nat :=
  labels.foldl (fun m s => max m s.length) 0

/-- The button texts built by `menu_create` (src/main.c:166-168): each
label rendered by `button_item` at the widest-label width. -/
def menu_items (labels : List String) : List String :=
  labels.map (fun l => button_item l (longest_label labels))

/-- The window geometry chosen by `menu_create` (src/main.c:170-176):
`width = longest + 6`, placed at
`(vertical_center len, horizontal_center width)` with `len` rows. -/
def menu_window (LINES COLS : Int) (labels : List String) : Int × Int × Int × Int :=
  let width : Int := Int.ofNat (longest_label labels) + 6
  (Int.ofNat labels.length, width,
   vertical_center LINES (Int.ofNat labels.length), horizontal_center COLS width)

/-- `color_byte_to_ncurses` (src/main.c:189-192):
`return color_byte / 255.0 * 1000;` — the quotient and product are
computed over ℚ (the double computation agrees with the exact value on
every byte 0..255) and the implicit conversion to `int` truncates toward
zero, which for a non-negative value is the floor. -/
def color_byte_to_ncurses (color_byte : Nat) : Int :=
  Int.floor ((color_byte : ℚ) / 255 * 1000)

/-- `init_color_from_bytes` (src/main.c:194-201): convert each of the
three bytes with `color_byte_to_ncurses`. -/
def init_color_from_bytes (byte_r byte_g byte_b : Nat) : Int × Int × Int :=
  (color_byte_to_ncurses byte_r, color_byte_to_ncurses byte_g,
   color_byte_to_ncurses byte_b)

/-- The file content produced by `write_output` (src/main.c:203-218):
four `fprintf` calls, each ending in a newline, in the order
URL, LABEL, 256SUM, SIZE. -/
def write_output_content (d : iso_data) : String :=
  "MEDIA_URL=\"" ++ d.url ++ "\"\n" ++
  "MEDIA_LABEL=\"" ++ d.label ++ "\"\n" ++
  "MEDIA_256SUM=\"" ++ d.sha256sum ++ "\"\n" ++
  "MEDIA_SIZE=\"" ++ toString d.size ++ "\"\n"

/-- A file system mapping paths to file contents. -/
def FileSystem : Type := String → Option String

/-- `write_output` (src/main.c:203-218) on the file system:
`fopen(fname, "w")` truncates any existing content, so the path's new
content is exactly `write_output_content`, independent of what was there
before. -/
def write_output (fs : FileSystem) (fname : String) (d : iso_data) : FileSystem :=
  fun p => if p = fname then some (write_output_content d) else fs p

/-- The failure points of `main` (src/main.c:265-336) and of the helpers
it calls that can terminate the process: argument parsing
(src/main.c:267-268), feed reading (272-276), `initscr` (278-281),
`has_colors` (287-290), `start_color` (292-295), and the output-file
`fopen` inside `write_output` (205-209). -/
structure Env where
  args_ok : Bool
  read_ok : Bool
  initscr_ok : Bool
  has_colors : Bool
  start_color_ok : Bool
  open_ok : Bool
  deriving DecidableEq, Repr

/-- The exit code of `main` (src/main.c:265-336) as a function of which
external calls succeed: each failure exits 1 (via `usage`/`exit(1)`/
`return 1`), success falls through to `return 0`. -/
def main_exit (e : Env) : Nat :=
  if e.args_ok = false then 1
  else if e.read_ok = false then 1
  else if e.initscr_ok = false then 1
  else if e.has_colors = false then 1
  else if e.start_color_ok = false then 1
  else if e.open_ok = false then 1
  else 0

/-! ## Helper lemmas -/

/-- Truncating division by 2 in terms of Euclidean division. -/
lemma tdiv_two_eq (x : Int) : Int.tdiv x 2 = if 0 ≤ x then x / 2 else -(-x / 2) := by
  split_ifs with h
  · exact Int.tdiv_eq_ediv h (by norm_num)
  · have hneg : Int.tdiv (-x) 2 = -Int.tdiv x 2 := Int.neg_tdiv x 2
    have : Int.tdiv (-x) 2 = -x / 2 := Int.tdiv_eq_ediv (by omega) (by norm_num)
    omega

lemma loop_step_snd_false_iff (n i : Nat) (ch : Int) :
    (loop_step n i ch).2 = false ↔ is_commit_key ch := by
  unfold loop_step is_commit_key KEY_DOWN KEY_UP KEY_ENTER
  split_ifs <;> simp_all

lemma loop_step_commit (n i : Nat) (ch : Int) (h : is_commit_key ch) :
    loop_step n i ch = (i, false) := by
  unfold is_commit_key KEY_ENTER at h
  unfold loop_step KEY_DOWN KEY_UP KEY_ENTER
  split_ifs <;> first | rfl | omega

lemma loop_step_ignored (n i : Nat) (ch : Int) (h : ¬ is_commit_key ch)
    (hd : ch ≠ KEY_DOWN) (hu : ch ≠ KEY_UP) :
    loop_step n i ch = (i, true) := by
  unfold is_commit_key KEY_ENTER at h
  unfold KEY_DOWN at hd
  unfold KEY_UP at hu
  unfold loop_step KEY_DOWN KEY_UP KEY_ENTER
  split_ifs <;> first | rfl | omega

lemma loop_step_fst_lt (n i : Nat) (ch : Int) (h : i < n) :
    (loop_step n i ch).1 < n := by
  unfold loop_step req_down_item req_up_item
  split_ifs <;> simp <;> omega

lemma session_loop_some_lt (n : Nat) :
    ∀ (evs : List Int) (i j : Nat), i < n →
      session_loop n evs i = some j → j < n := by
  intro evs
  induction evs with
  | nil => intro i j _ h; simp [session_loop] at h
  | cons ch rest ih =>
    intro i j hi h
    have hlt := loop_step_fst_lt n i ch hi
    unfold session_loop at h
    rcases hstep : loop_step n i ch with ⟨k, b⟩
    rw [hstep] at h hlt
    simp only at hlt
    cases b
    · cases h
      exact hlt
    · exact ih k j hlt h

lemma session_loop_no_commit (n : Nat) :
    ∀ (evs : List Int) (i : Nat), (∀ ch ∈ evs, ¬ is_commit_key ch) →
      session_loop n evs i = none := by
  intro evs
  induction evs with
  | nil => intro i _; rfl
  | cons ch rest ih =>
    intro i h
    have hch : ¬ is_commit_key ch := h ch (List.mem_cons_self ch rest)
    unfold session_loop
    rcases hstep : loop_step n i ch with ⟨k, b⟩
    cases b
    · exact absurd ((loop_step_snd_false_iff n i ch).mp (by rw [hstep])) hch
    · exact ih k (fun c hc => h c (List.mem_cons_of_mem ch hc))

/-! ## Claims -/

/-- C1: For every choice set of `n ≥ 1` records, the selection session
starts with index 0 highlighted; a down-arrow event moves the highlight
from `i` to `min (i+1) (n-1)` (no wraparound past the last entry); an
up-arrow event moves it from `i` to `max (i-1) 0` (no wraparound past
the first entry); a commit key commits the currently highlighted index;
and the index returned at commit is always a valid index into the choice
set. -/
theorem C1_session_navigation (n : Nat) (hn : 1 ≤ n) :
    (new_menu_index = 0 ∧ new_menu_index < n)
    ∧ (∀ i, i < n → loop_step n i KEY_DOWN = (min (i + 1) (n - 1), true))
    ∧ (∀ i, (loop_step n i KEY_UP).2 = true
        ∧ ((loop_step n i KEY_UP).1 : ℤ) = max ((i : ℤ) - 1) 0)
    ∧ (∀ i ch, is_commit_key ch → loop_step n i ch = (i, false))
    ∧ (∀ (choices : List iso_data) (evs : List Int) (i j : Nat),
        choices.length = n → i < n → session_loop n evs i = some j →
        j < n ∧ (menu_get_selected_item choices j).isSome = true) := by
  refine ⟨⟨rfl, hn⟩, ?_, ?_, ?_, ?_⟩
  · intro i hi
    unfold loop_step
    rw [if_pos rfl]
    unfold req_down_item
    split_ifs with h <;> rw [Prod.mk.injEq] <;> exact ⟨by omega, rfl⟩
  · intro i
    unfold loop_step
    rw [if_neg (by decide), if_pos rfl]
    unfold req_up_item
    refine ⟨rfl, ?_⟩
    simp only
    omega
  · exact fun i ch h => loop_step_commit n i ch h
  · intro choices evs i j hlen hi hrun
    have hj : j < n := session_loop_some_lt n evs i j hi hrun
    refine ⟨hj, ?_⟩
    unfold menu_get_selected_item
    rw [List.getElem?_eq_getElem (by omega)]
    rfl

/-- Witness for C1 at `n = 3`: fresh menu starts at 0; down from 1 goes
to 2; down from 2 stays at 2; up from 0 stays at 0. -/
theorem C1_session_navigation_witness :
    new_menu_index = 0
    ∧ loop_step 3 1 KEY_DOWN = (2, true)
    ∧ loop_step 3 2 KEY_DOWN = (2, true)
    ∧ ((loop_step 3 0 KEY_UP).1 : ℤ) = 0 := by
  obtain ⟨⟨h0, _⟩, hdown, hup, -, -⟩ := C1_session_navigation 3 (by norm_num)
  refine ⟨h0, ?_, ?_, ?_⟩
  · simpa using hdown 1 (by norm_num)
  · simpa using hdown 2 (by norm_num)
  · simpa using (hup 0).2

/-- C4: While the selection session is navigating, the only input events
that end the loop are enter, carriage return, newline and space, each of
which commits the currently highlighted entry; every key other than
these and the two arrow keys leaves the state unchanged; and a stream
containing no commit key leaves the session still navigating — there is
no cancel path. -/
theorem C4_commit_only_exit (n : Nat) :
    (∀ i ch, (loop_step n i ch).2 = false ↔ is_commit_key ch)
    ∧ (∀ i ch, is_commit_key ch → loop_step n i ch = (i, false))
    ∧ (∀ i ch, ¬ is_commit_key ch → ch ≠ KEY_DOWN → ch ≠ KEY_UP →
        loop_step n i ch = (i, true))
    ∧ (∀ (evs : List Int) (i : Nat), (∀ ch ∈ evs, ¬ is_commit_key ch) →
        session_loop n evs i = none) := by
  exact ⟨fun i ch => loop_step_snd_false_iff n i ch,
    fun i ch h => loop_step_commit n i ch h,
    fun i ch h hd hu => loop_step_ignored n i ch h hd hu,
    fun evs i h => session_loop_no_commit n evs i h⟩

/-- Witness for C4 at `n = 2`: a stream of arrow keys and an ignored key
(code 120, the letter x) never exits; a space commits the current index. -/
theorem C4_commit_only_exit_witness :
    session_loop 2 [KEY_DOWN, 120, KEY_UP] 0 = none
    ∧ loop_step 2 1 32 = (1, false) := by
  obtain ⟨-, hcommit, -, hnone⟩ := C4_commit_only_exit 2
  exact ⟨hnone [KEY_DOWN, 120, KEY_UP] 0 (by decide),
    hcommit 1 32 (by decide)⟩

/-- C2: When the feed reader fails on some input feed, choice-set
construction aborts at that first failing feed and propagates its
error: the feeds after it are never passed to the reader (the trace of
invocations stops at the failing feed) and no partial choice set is
returned. -/
theorem C2_fail_fast {α : Type} (reader : α → Except FeedError iso_data)
    (pre post : List α) (f : α) (e : FeedError)
    (hpre : ∀ g ∈ pre, ∃ v, reader g = .ok v)
    (hf : reader f = .error e) :
    read_iso_choices reader (pre ++ f :: post) = .error e
    ∧ (read_iso_choices_traced reader (pre ++ f :: post)).1 = pre ++ [f] := by
  induction pre with
  | nil =>
    constructor
    · rw [List.nil_append]
      simp only [read_iso_choices]
      rw [hf]
    · rw [List.nil_append]
      simp only [read_iso_choices_traced]
      rw [hf]
      simp
  | cons g pre ih =>
    obtain ⟨v, hv⟩ := hpre g (List.mem_cons_self g pre)
    obtain ⟨ih1, ih2⟩ := ih (fun x hx => hpre x (List.mem_cons_of_mem g hx))
    constructor
    · rw [List.cons_append]
      simp only [read_iso_choices]
      rw [hv, ih1]
    · rw [List.cons_append]
      simp only [read_iso_choices_traced]
      rw [hv]
      rcases htr : read_iso_choices_traced reader (pre ++ f :: post) with ⟨t, r⟩
      rw [htr] at ih2
      simp only at ih2
      cases r <;> simp only <;> rw [List.cons_append, ih2]

/-- A feed reader used only to witness the construction-loop theorems:
succeeds on feed 0 with a fixed record, fails on every other feed. -/
def sample_record : iso_data :=
  { url := "https://releases.ubuntu.com/a.iso",
    label := "Ubuntu Server 24.04",
    sha256sum := "cafe", size := 1642631168 }

/-- A reader over `Nat`-labelled feeds: `.ok sample_record` on feed 0,
`.error .parseError` elsewhere. -/
def sample_reader (k : Nat) : Except FeedError iso_data :=
  if k = 0 then .ok sample_record else .error .parseError

/-- Witness for C2: with feeds `[0, 1, 2]`, where the reader fails on
feed 1, construction returns the parse error, and only feeds 0 and 1
were ever read. -/
theorem C2_fail_fast_witness :
    read_iso_choices sample_reader [0, 1, 2] = .error .parseError
    ∧ (read_iso_choices_traced sample_reader [0, 1, 2]).1 = [0, 1] := by
  have h := C2_fail_fast sample_reader [0] [2] 1 .parseError
    (by intro g hg
        simp only [List.mem_singleton] at hg
        exact ⟨sample_record, by rw [hg]; rfl⟩)
    (by rfl)
  simpa using h

/-- C5: Choice-set construction invokes the feed reader exactly once per
input feed, in input order (the invocation trace equals the feed list),
and on success returns a choice set of the same length whose `i`-th
record is the reader's result on the `i`-th feed. -/
theorem C5_build_order {α : Type} (reader : α → Except FeedError iso_data)
    (feeds : List α)
    (h : ∀ f ∈ feeds, ∃ v, reader f = .ok v) :
    ∃ vals : List iso_data,
      read_iso_choices reader feeds = .ok vals
      ∧ (read_iso_choices_traced reader feeds).1 = feeds
      ∧ vals.length = feeds.length
      ∧ ∀ i, i < feeds.length →
          ∃ f v, feeds[i]? = some f ∧ vals[i]? = some v ∧ reader f = .ok v := by
  induction feeds with
  | nil => exact ⟨[], rfl, rfl, rfl, fun i hi => by simp at hi⟩
  | cons g feeds ih =>
    obtain ⟨v, hv⟩ := h g (List.mem_cons_self g feeds)
    obtain ⟨vals, h1, h2, h3, h4⟩ := ih (fun x hx => h x (List.mem_cons_of_mem g hx))
    refine ⟨v :: vals, ?_, ?_, ?_, ?_⟩
    · simp only [read_iso_choices]
      rw [hv, h1]
    · simp only [read_iso_choices_traced]
      rw [hv]
      rcases htr : read_iso_choices_traced reader feeds with ⟨t, r⟩
      rw [htr] at h2
      simp only at h2
      cases r <;> simp only <;> rw [h2]
    · simpa using h3
    · intro i hi
      match i with
      | 0 => exact ⟨g, v, by simp, by simp, hv⟩
      | i + 1 =>
        obtain ⟨f, w, hf, hw, hr⟩ := h4 i (by simpa using hi)
        exact ⟨f, w, by simpa using hf, by simpa using hw, hr⟩

/-- Witness for C5: a reader succeeding on every feed in `[0, 0]`
produces a choice set of length 2 in input order with trace `[0, 0]`. -/
theorem C5_build_order_witness :
    ∃ vals : List iso_data,
      read_iso_choices sample_reader [0, 0] = .ok vals
      ∧ (read_iso_choices_traced sample_reader [0, 0]).1 = [0, 0]
      ∧ vals.length = 2
      ∧ ∀ i, i < 2 →
          ∃ f v, ([0, 0] : List Nat)[i]? = some f ∧ vals[i]? = some v
            ∧ sample_reader f = .ok v := by
  have h := C5_build_order sample_reader [0, 0] (by
    intro f hf
    simp only [List.mem_cons, List.not_mem_nil, or_false] at hf
    rcases hf with h | h <;> exact ⟨sample_record, by simp [sample_reader, h]⟩)
  simpa using h

/-- C3: For every fully populated record, the result emitter leaves the
output path holding exactly the four newline-terminated lines
`MEDIA_URL`, `MEDIA_LABEL`, `MEDIA_256SUM`, `MEDIA_SIZE` in that order
and nothing else, with the size printed in decimal; the content is
independent of what the file system previously held at that path
(truncate-on-open: re-running emit overwrites rather than appends), and
no other path is touched. -/
theorem C3_emit_format (fs : FileSystem) (fname : String) (d : iso_data) :
    write_output fs fname d fname =
      some ("MEDIA_URL=\"" ++ d.url ++ "\"\n"
        ++ "MEDIA_LABEL=\"" ++ d.label ++ "\"\n"
        ++ "MEDIA_256SUM=\"" ++ d.sha256sum ++ "\"\n"
        ++ "MEDIA_SIZE=\"" ++ toString d.size ++ "\"\n")
    ∧ (∀ fs' : FileSystem, write_output fs' fname d fname = write_output fs fname d fname)
    ∧ (∀ p, p ≠ fname → write_output fs fname d p = fs p) := by
  refine ⟨?_, ?_, ?_⟩
  · simp [write_output, write_output_content]
  · intro fs'
    simp [write_output]
  · intro p hp
    simp [write_output, hp]

/-- Witness for C3: emitting `sample_record` to path `"out"` over a file
system that already holds stale content at `"out"` yields exactly the
four expected lines. -/
theorem C3_emit_format_witness :
    write_output (fun _ => some "stale") "out" sample_record "out" =
      some ("MEDIA_URL=\"https://releases.ubuntu.com/a.iso\"\n"
        ++ "MEDIA_LABEL=\"Ubuntu Server 24.04\"\n"
        ++ "MEDIA_256SUM=\"cafe\"\n"
        ++ "MEDIA_SIZE=\"1642631168\"\n") := by
  have h := (C3_emit_format (fun _ => some "stale") "out" sample_record).1
  rw [h]
  rfl

/-- C6: the program exits with code 1 on usage error or on any fatal
failure (feed-read failure, `initscr` failure, missing color support,
`start_color` failure, or output-file open failure), exits with code 0
when all of these succeed, and no other exit code is possible. -/
theorem C6_exit_codes (e : Env) :
    (main_exit e = 0 ↔
      (e.args_ok = true ∧ e.read_ok = true ∧ e.initscr_ok = true
        ∧ e.has_colors = true ∧ e.start_color_ok = true ∧ e.open_ok = true))
    ∧ (main_exit e = 1 ↔
      (e.args_ok = false ∨ e.read_ok = false ∨ e.initscr_ok = false
        ∨ e.has_colors = false ∨ e.start_color_ok = false ∨ e.open_ok = false))
    ∧ (main_exit e = 0 ∨ main_exit e = 1) := by
  obtain ⟨a, r, i, h, s, o⟩ := e
  cases a <;> cases r <;> cases i <;> cases h <;> cases s <;> cases o <;>
    simp [main_exit]

/-- Witness for C6: all failure-free gives exit 0; a failing output-file
open gives exit 1. -/
theorem C6_exit_codes_witness :
    main_exit ⟨true, true, true, true, true, true⟩ = 0
    ∧ main_exit ⟨true, true, true, true, true, false⟩ = 1 := by
  refine ⟨?_, ?_⟩
  · exact (C6_exit_codes ⟨true, true, true, true, true, true⟩).1.mpr
      ⟨rfl, rfl, rfl, rfl, rfl, rfl⟩
  · exact (C6_exit_codes ⟨true, true, true, true, true, false⟩).2.1.mpr
      (Or.inr (Or.inr (Or.inr (Or.inr (Or.inr rfl)))))

/-- Every label's length is bounded by `longest_label`. -/
lemma length_le_longest_label (labels : List String) :
    ∀ l ∈ labels, l.length ≤ longest_label labels := by
  have step : ∀ (ls : List String) (m : Nat),
      m ≤ ls.foldl (fun a s => max a s.length) m
      ∧ ∀ l ∈ ls, l.length ≤ ls.foldl (fun a s => max a s.length) m := by
    intro ls
    induction ls with
    | nil => exact fun m => ⟨le_refl m, fun l hl => absurd hl (List.not_mem_nil l)⟩
    | cons x ls ih =>
      intro m
      obtain ⟨h1, h2⟩ := ih (max m x.length)
      refine ⟨le_trans (le_max_left m x.length) h1, ?_⟩
      intro l hl
      rcases List.mem_cons.mp hl with rfl | hl
      · exact le_trans (le_max_right m l.length) h1
      · exact h2 l hl
  exact (step labels 0).2

/-- C7: every rendered list entry shares one width: each button's text
is the label left-justified and padded to the widest label length,
preceded by the bracket-and-space decoration and followed by the
trailing right-pointing glyph and closing bracket, so every button
string in the menu has length `longest_label + 6`. -/
theorem C7_button_width (labels : List String) :
    (∀ t ∈ menu_items labels, t.length = longest_label labels + 6)
    ∧ (∀ l ∈ labels, button_item l (longest_label labels) =
        "[ " ++ (l ++ String.mk (List.replicate (longest_label labels - l.length) ' '))
          ++ " ▸ ]") := by
  constructor
  · intro t ht
    obtain ⟨l, hl, rfl⟩ := List.mem_map.mp ht
    have hle : l.length ≤ longest_label labels := length_le_longest_label labels l hl
    have hb : ("[ " : String).length = 2 := rfl
    have he : (" ▸ ]" : String).length = 4 := rfl
    have hrep : (String.mk (List.replicate (longest_label labels - l.length) ' ')).length
        = longest_label labels - l.length := by
      show (List.replicate (longest_label labels - l.length) ' ').length
        = longest_label labels - l.length
      exact List.length_replicate _ _
    simp only [button_item, pad_left_justified, String.length_append, hrep, hb, he]
    omega
  · intro l _
    rfl

/-- Witness for C7: with labels of lengths 1 and 3 the two buttons both
have length `3 + 6 = 9`. -/
theorem C7_button_width_witness :
    (∀ t ∈ menu_items ["a", "bbb"], t.length = 9)
    ∧ button_item "a" (longest_label ["a", "bbb"]) = "[ a   ▸ ]" := by
  obtain ⟨h1, h2⟩ := C7_button_width ["a", "bbb"]
  constructor
  · intro t ht
    have := h1 t ht
    simpa using this
  · rw [h2 "a" (by simp)]
    rfl

/-- C8 counterexample: the claim says the banner region has a fixed
height of two lines, but `top_banner` paints three distinct screen rows
(0, 1 and 2: upper half-block row, caption row, lower half-block row),
so the banner region is three lines tall, not two. -/
theorem C8_counterexample :
    (banner_rows 80 "Choose an Ubuntu version to install").length = 3
    ∧ (banner_rows 80 "Choose an Ubuntu version to install").length ≠ 2 := by
  have hmap : (top_banner 80 "Choose an Ubuntu version to install").map DrawOp.row
      = [0, 1, 2, 1] := rfl
  have hrows : banner_rows 80 "Choose an Ubuntu version to install" = [0, 2, 1] := by
    unfold banner_rows
    rw [hmap]
    decide
  rw [hrows]
  exact ⟨rfl, by decide⟩

/-- C8 amended: the button list is rendered under a color banner of
fixed height three lines (rows 0-2), with the caption centered
horizontally on the middle row, and the list occupies the screen area
below that banner (its top row is at least 3 whenever the list fits,
i.e. `n ≤ LINES - 3`). -/
theorem C8_banner_amended (COLS LINES : Int) (label : String) (n : Int)
    (h1 : 1 ≤ n) (h2 : n ≤ LINES - 3) :
    (banner_rows COLS label).length = 3
    ∧ (∀ y ∈ banner_rows COLS label, 0 ≤ y ∧ y ≤ 2)
    ∧ DrawOp.text 1 (horizontal_center COLS (Int.ofNat label.length)) label
        ∈ top_banner COLS label
    ∧ 3 ≤ vertical_center LINES n := by
  have hmap : (top_banner COLS label).map DrawOp.row = [0, 1, 2, 1] := rfl
  have hrows : banner_rows COLS label = [0, 2, 1] := by
    unfold banner_rows
    rw [hmap]
    decide
  refine ⟨by rw [hrows]; rfl, ?_, ?_, ?_⟩
  · rw [hrows]
    intro y hy
    simp only [List.mem_cons, List.not_mem_nil, or_false] at hy
    rcases hy with rfl | rfl | rfl <;> norm_num
  · simp [top_banner]
  · unfold vertical_center
    rw [tdiv_two_eq, if_pos (by omega)]
    omega

/-- Witness for the amended C8 at a 80x24 screen with a 2-entry list:
three banner rows, all among rows 0-2, and the list top row is at
least 3. -/
theorem C8_banner_amended_witness :
    (banner_rows 80 "Choose an Ubuntu version to install").length = 3
    ∧ 3 ≤ vertical_center 24 2 := by
  obtain ⟨hlen, -, -, hv⟩ := C8_banner_amended 80 24
    "Choose an Ubuntu version to install" 2 (by norm_num) (by norm_num)
  exact ⟨hlen, hv⟩

/-- C9 counterexample: the claim says that for `n > LINES - 3` the
computed top row falls below 3; but at `LINES = 24`, `n = 22` (one more
than `LINES - 3`) the row is exactly 3, because `(LINES - 3 - n) / 2 =
(-1) / 2` truncates toward zero to 0 in C. -/
theorem C9_counterexample :
    (22 : Int) > 24 - 3
    ∧ vertical_center 24 22 = 3
    ∧ ¬ vertical_center 24 22 < 3 := by
  refine ⟨by norm_num, by decide, by decide⟩

/-- C9 amended: the menu top row is `3 + (LINES - 3 - n) / 2` with
truncating division; for `1 ≤ n ≤ LINES - 3` it is at least 3, so the
list never overlaps the three banner rows; there is no guard for larger
`n`: for `n ≥ LINES - 1` the row falls below 3 and for `n ≥ LINES + 5`
it is negative, though at `n = LINES - 2` it still equals 3 because the
division truncates toward zero. -/
theorem C9_vertical_center (LINES n : Int) :
    (vertical_center LINES n = 3 + Int.tdiv (LINES - 3 - n) 2)
    ∧ (1 ≤ n → n ≤ LINES - 3 → 3 ≤ vertical_center LINES n)
    ∧ (LINES - 1 ≤ n → vertical_center LINES n < 3)
    ∧ (n = LINES - 2 → vertical_center LINES n = 3)
    ∧ (LINES + 5 ≤ n → vertical_center LINES n < 0) := by
  have hv : vertical_center LINES n = 3 + Int.tdiv (LINES - 3 - n) 2 := rfl
  have ht := tdiv_two_eq (LINES - 3 - n)
  refine ⟨hv, fun ha hb => ?_, fun h => ?_, fun h => ?_, fun h => ?_⟩ <;>
    rw [hv, ht] <;> split_ifs with hs <;> omega

/-- Witness for the amended C9 on a 24-line screen: a 5-entry list sits
at row 11 (≥ 3); a 23-entry list would sit above row 3; a 100-entry
list would sit at a negative row. -/
theorem C9_vertical_center_witness :
    3 ≤ vertical_center 24 5
    ∧ vertical_center 24 23 < 3
    ∧ vertical_center 24 100 < 0 := by
  exact ⟨(C9_vertical_center 24 5).2.1 (by norm_num) (by norm_num),
    (C9_vertical_center 24 23).2.2.1 (by norm_num),
    (C9_vertical_center 24 100).2.2.2.2 (by norm_num)⟩

/-- The conversion agrees with truncating natural division. -/
lemma color_byte_to_ncurses_eq (b : Nat) :
    color_byte_to_ncurses b = ((b * 1000 / 255 : ℕ) : ℤ) := by
  unfold color_byte_to_ncurses
  rw [show ((b : ℚ)) / 255 * 1000 = ((b * 1000 : ℕ) : ℚ) / ((255 : ℕ) : ℚ) by
    push_cast; ring]
  rw [Rat.floor_natCast_div_natCast]
  omega

/-- C10: for every 8-bit color component `b` in `[0, 255]`, the ncurses
color intensity equals the truncation toward zero of `b / 255 * 1000`
(which for non-negative values is `b * 1000 / 255` with truncating
natural division): it maps 0 to 0 and 255 to exactly 1000, is monotone
nondecreasing in `b`, and always lies in `[0, 1000]`. -/
theorem C10_color_conversion (b : Nat) (hb : b ≤ 255) :
    color_byte_to_ncurses b = ((b * 1000 / 255 : ℕ) : ℤ)
    ∧ color_byte_to_ncurses 0 = 0
    ∧ color_byte_to_ncurses 255 = 1000
    ∧ (∀ b1 b2 : Nat, b1 ≤ b2 → color_byte_to_ncurses b1 ≤ color_byte_to_ncurses b2)
    ∧ 0 ≤ color_byte_to_ncurses b ∧ color_byte_to_ncurses b ≤ 1000 := by
  refine ⟨color_byte_to_ncurses_eq b, ?_, ?_, ?_, ?_, ?_⟩
  · rw [color_byte_to_ncurses_eq]
    decide
  · rw [color_byte_to_ncurses_eq]
    decide
  · intro b1 b2 hle
    rw [color_byte_to_ncurses_eq, color_byte_to_ncurses_eq]
    exact_mod_cast Nat.div_le_div_right (Nat.mul_le_mul_right 1000 hle)
  · rw [color_byte_to_ncurses_eq]
    exact Int.natCast_nonneg _
  · rw [color_byte_to_ncurses_eq]
    have : b * 1000 / 255 ≤ 1000 := by
      have h1 : b * 1000 ≤ 255 * 1000 := Nat.mul_le_mul_right 1000 hb
      calc b * 1000 / 255 ≤ 255 * 1000 / 255 := Nat.div_le_div_right h1
        _ = 1000 := by norm_num
    exact_mod_cast this

/-- Witness for C10 at `b = 128`: the intensity is 501, and the top of
the range maps to exactly 1000. -/
theorem C10_color_conversion_witness :
    color_byte_to_ncurses 128 = 501 ∧ color_byte_to_ncurses 255 = 1000 := by
  obtain ⟨h1, -, h255, -, -, -⟩ := C10_color_conversion 128 (by norm_num)
  exact ⟨by rw [h1]; decide, h255⟩

end MiniIso
